import Mathlib

/-!
Verification of the naemon worker core (src/naemon/lib/worker.c) against its
natural-language specification.  The C code is shallowly embedded: each
relevant C function becomes an executable Lean definition over explicit state;
asynchronous behaviour of the operating system (waitpid results, read results,
pid allocation, kill outcomes) is supplied as explicit oracle parameters, so
that every control path of the C code corresponds to an oracle value.
Machine integers are modelled as Nat with explicit truncation (mod 2 ^ 32,
clamping at ULONG_MAX) where the source casts.
-/

namespace NaemonWorker

/-- Linux errno value of ETIME, used by worker.c as a timeout reason. -/
def ETIME : Nat := 62

/-- Linux errno value of ESTALE, used by worker.c both as a kill reason and as
the job state marking "completion already sent, child not yet reaped". -/
def ESTALE : Nat := 116

/-- The message delimiter as sent on the wire: MSG_DELIM is the C string
literal of bytes 0x01 0x00 0x00 and MSG_DELIM_LEN is sizeof of it, which
includes the terminating NUL, hence four bytes go out. -/
def MSG_DELIM : List Nat := [1, 0, 0, 0]

/-- The bytes of the fixed prefix "log=" that wlog keeps at the start of its
static buffer. -/
def logHeader : List Nat := [108, 111, 103, 61]

/-- Model of wlog (worker.c lines 72-96).  The input is the result of the
vsnprintf formatting step: none when vsnprintf returned a negative length,
some msg when the fully formatted message is msg (vsnprintf returns the
length the untruncated output would have; its write is bounded by
sizeof(lmsg) - 7 = 8185, so any message passing the length guard below has
been written un-truncated).  The output is the frame handed to write(), or
none when wlog returns without writing: the code drops the message when
`len < 0 || len + 7 >= sizeof(lmsg)` with sizeof(lmsg) = 8192.  A sent frame
is "log=" ++ msg ++ one NUL pair separator ++ the four delimiter bytes
(to_send = len + 4 + MSG_DELIM_LEN + 1). -/
def wlog (fmtResult : Option (List Nat)) : Option (List Nat) :=
  match fmtResult with
  | none => none
  | some msg =>
    if msg.length + 7 ≥ 8192 then none
    else some (logHeader ++ msg ++ [0] ++ MSG_DELIM)

/-- Value of a character as a digit in bases up to 36, as strtoul accepts. -/
def digitVal (c : Char) : Option Nat :=
  if '0' ≤ c ∧ c ≤ '9' then some (c.toNat - 48)
  else if 'a' ≤ c ∧ c ≤ 'z' then some (c.toNat - 97 + 10)
  else if 'A' ≤ c ∧ c ≤ 'Z' then some (c.toNat - 65 + 10)
  else none

/-- ULONG_MAX for the 64-bit longs of the worker's platform. -/
def ULONG_MAX : Nat := 2 ^ 64 - 1

/-- Digit-accumulation loop of strtoul: consume leading digits valid in the
given base, stopping at the first non-digit. -/
def strtoulDigits (base : Nat) (acc : Nat) : List Char → Nat
  | [] => acc
  | c :: cs =>
    match digitVal c with
    | some d => if d < base then strtoulDigits base (acc * base + d) cs else acc
    | none => acc

/-- True for the characters isspace() accepts in the C locale. -/
def isCSpace (c : Char) : Bool :=
  c = ' ' ∨ c = '\t' ∨ c = '\n' ∨ c = '\x0b' ∨ c = '\x0c' ∨ c = '\r'

/-- Whether a character is a hexadecimal digit. -/
def isHexDigit (c : Char) : Bool :=
  match digitVal c with
  | some d => d < 16
  | none => false

/-- Model of C strtoul(value, &endptr, 0), the call parse_command_kvvec makes
for job_id and timeout.  Base 0 means C-integer-literal syntax: optional
whitespace, optional sign, then 0x/0X prefix for hexadecimal, a leading 0 for
octal, otherwise decimal; the longest valid digit prefix is converted; no
conversion yields 0.  On overflow strtoul returns ULONG_MAX; a minus sign
negates the value in unsigned arithmetic. -/
def strtoul0 (s : List Char) : Nat :=
  let s1 := s.dropWhile isCSpace
  let signAndRest : Bool × List Char :=
    match s1 with
    | '-' :: t => (true, t)
    | '+' :: t => (false, t)
    | t => (false, t)
  let neg := signAndRest.1
  let magnitude : Nat :=
    match signAndRest.2 with
    | '0' :: 'x' :: t => if t.headD 'g' |> isHexDigit then strtoulDigits 16 0 t else 0
    | '0' :: 'X' :: t => if t.headD 'g' |> isHexDigit then strtoulDigits 16 0 t else 0
    | '0' :: t => strtoulDigits 8 0 t
    | t => strtoulDigits 10 0 t
  let clamped := min magnitude ULONG_MAX
  if neg then (2 ^ 64 - clamped) % 2 ^ 64 else clamped

/-- The fields of child_process that parse_command_kvvec fills in: the copied
command line (none while cp->cmd is NULL), the job id and the timeout, both
stored in C as unsigned int, hence the mod 2 ^ 32 truncation of the strtoul
result. -/
structure ChildProcess where
  cmd : Option String
  id : Nat
  timeout : Nat
deriving Repr, DecidableEq

/-- One iteration of the key scan in parse_command_kvvec (worker.c lines
558-576): strcmp against "command", "job_id" and "timeout"; other keys are
ignored (they stay in the request vector only). -/
def parseOneKv (cp : ChildProcess) (kv : String × String) : ChildProcess :=
  if kv.1 = "command" then { cp with cmd := some kv.2 }
  else if kv.1 = "job_id" then { cp with id := strtoul0 kv.2.data % 2 ^ 32 }
  else if kv.1 = "timeout" then { cp with timeout := strtoul0 kv.2.data % 2 ^ 32 }
  else cp

/-- Model of parse_command_kvvec (worker.c lines 536-584): scan the request
pairs into a zero-initialised child_process (calloc), then apply the default:
jobs without a timeout get 60 seconds. -/
def parse_command_kvvec (kvv : List (String × String)) : ChildProcess :=
  let cp := kvv.foldl parseOneKv ⟨none, 0, 0⟩
  if cp.timeout = 0 then { cp with timeout := 60 } else cp

/-- The value of the last pair with the given key, mirroring that a later
occurrence in the scan overwrites an earlier one. -/
def lastValue (key : String) : List (String × String) → Option String
  | [] => none
  | kv :: t =>
    match lastValue key t with
    | some v => some v
    | none => if kv.1 = key then some kv.2 else none

/-- Written from the specification's words, for comparison with the code:
the value of a key read as a plain decimal numeral ("Decimal whole seconds").
Only defined (some) on non-empty all-digit strings. -/
def specDecimalValue (cs : List Char) : Option Nat :=
  if cs ≠ [] ∧ cs.all (fun c => decide ('0' ≤ c ∧ c ≤ '9')) then
    some (cs.foldl (fun a c => a * 10 + (c.toNat - 48)) 0)
  else none

/-- Model of the strip_nul_bytes macro (worker.c lines 209-217) on the first
io.len bytes of a buffer: a NULL or empty buffer, or one whose first byte is
NUL, gets length 0; otherwise memchr truncates the length at the first NUL
found among the io.len content bytes (indexOf returns the length when no NUL
occurs, in which case the length is unchanged, as when memchr returns NULL). -/
def strip_nul_bytes (buf : List Nat) : List Nat :=
  match buf with
  | [] => []
  | b :: _ =>
    if b = 0 then []
    else buf.take (buf.indexOf 0)

/-- Outcome of one read() on a child pipe, as seen by gather_output: some
bytes (rd > 0), EINTR, EAGAIN/EWOULDBLOCK, end of file (rd == 0), or any
other error (EBADF, EFAULT, EINVAL, EIO ... after the wlog). -/
inductive ReadEv
| data (chunk : List Nat)
| eintr
| eagain
| eof
| rerr
deriving Repr, DecidableEq

/-- An output buffer together with whether its descriptor is still open
(fd != -1 and registered with the iobroker). -/
structure IoBuf where
  buf : List Nat
  fdOpen : Bool
deriving Repr, DecidableEq

/-- Model of one invocation of gather_output (worker.c lines 404-457) fed the
successive read() outcomes; returns the updated buffer and the log of the
chunks of every positive read, in order.  EINTR retries; EAGAIN returns with
the descriptor still open; a positive read appends its bytes exactly
(io->buf = realloc; memcpy; io->len += rd) and reads again; rd == 0 or any
other error closes the descriptor (iobroker_close, fd = -1) and returns.
The final flag only selects the check_completion call, which is modelled at
the job level, so it does not appear here. -/
def gather_output (io : IoBuf) : List ReadEv → IoBuf × List (List Nat)
  | [] => (io, [])
  | ev :: rest =>
    match ev with
    | ReadEv.eintr => gather_output io rest
    | ReadEv.eagain => (io, [])
    | ReadEv.data c =>
      let r := gather_output { io with buf := io.buf ++ c } rest
      (r.1, c :: r.2)
    | ReadEv.eof => ({ io with fdOpen := false }, [])
    | ReadEv.rerr => ({ io with fdOpen := false }, [])

/-- A sequence of gather_output invocations against one buffer (readiness
callbacks and the final drain from finish_job).  An invocation only happens
while the descriptor is open: once gather_output sets fd = -1 the iobroker
registration is gone and finish_job skips buffers whose fd is -1, so no
further reads occur on that pipe. -/
def run_gather (io : IoBuf) : List (List ReadEv) → IoBuf × List (List Nat)
  | [] => (io, [])
  | inv :: invs =>
    if io.fdOpen then
      let r := gather_output io inv
      let r2 := run_gather r.1 invs
      (r2.1, r.2 ++ r2.2)
    else run_gather io invs

/-- mkstr("%ld.%06ld", tv_sec, tv_usec): seconds, a dot, and the microseconds
zero-padded to six digits. -/
def fmtTv (tv : Nat × Nat) : String :=
  let us := toString tv.2
  toString tv.1 ++ "." ++ String.mk (List.replicate (6 - us.length) '0') ++ us

/-- The rusage fields finish_job reports. -/
structure Rusage where
  utime : Nat × Nat
  stime : Nat × Nat
  minflt : Int
  majflt : Int
  inblock : Int
  oublock : Int
deriving Repr, DecidableEq

/-- Model of the response vector built by finish_job (worker.c lines
258-289), as the ordered key/value list handed to worker_send_kvvec.  First
every request pair except those with the three-byte key "env"; then
wait_status, start, stop, runtime; then on reason == 0 the exited_ok=1 pair
followed by the six rusage pairs, or on reason != 0 the exited_ok=0 pair
followed by error_code; finally outerr and outstd (their values are the
NUL-stripped captured bytes; they are taken as opaque strings here, as is the
"%f" image of the runtime float). -/
def finish_job_resp (request : List (String × String)) (ret : Int)
    (start stop : Nat × Nat) (runtime : String) (reason : Nat) (ru : Rusage)
    (outerr outstd : String) : List (String × String) :=
  request.filter (fun kv => decide (¬ (kv.1.length = 3 ∧ kv.1 = "env")))
  ++ [("wait_status", toString ret), ("start", fmtTv start),
      ("stop", fmtTv stop), ("runtime", runtime)]
  ++ (if reason = 0 then
        [("exited_ok", "1"), ("ru_utime", fmtTv ru.utime),
         ("ru_stime", fmtTv ru.stime), ("ru_minflt", toString ru.minflt),
         ("ru_majflt", toString ru.majflt), ("ru_inblock", toString ru.inblock),
         ("ru_oublock", toString ru.oublock)]
      else
        [("exited_ok", "0"), ("error_code", toString (reason : Int))])
  ++ [("outerr", outerr), ("outstd", outstd)]

/-- Outcome of one waitpid(pid, &status, WNOHANG) call inside kill_job's reap
loop: the child pid itself, -1 with errno ECHILD, 0 (child exists, none
exited), or -1 with any other errno (for instance EINTR). -/
inductive WaitRes
| child
| echild
| zero
| werr
deriving Repr, DecidableEq

/-- Outcome of the kill(-pid, SIGKILL) call in kill_job: success, failure
with ESRCH (group already gone, counts as reaped), or failure with any other
errno (logged, not treated as reaped). -/
inductive KillRes
| ok
| esrch
| kerr
deriving Repr, DecidableEq

/-- The do/while reap loop of kill_job (worker.c lines 368-373): iterate at
least once; each iteration sets reaped when waitpid returned the pid or
ECHILD; continue while ret is nonzero and not reaped.  Returns the final ret
(as a WaitRes) and the reaped flag.  The empty list (an oracle that keeps
returning nothing, never realised by the OS) falls out as ret == 0. -/
def killWaitLoop (reaped : Bool) : List WaitRes → WaitRes × Bool
  | [] => (WaitRes.zero, reaped)
  | w :: ws =>
    let r := reaped || (w == WaitRes.child || w == WaitRes.echild)
    if w ≠ WaitRes.zero ∧ r = false then killWaitLoop r ws else (w, r)

/-- The externally visible effects of one kill_job / check_completion call on
a tracked job: the job's state field afterwards, the reasons of the
completion records written to the master by finish_job (in order), whether
destroy_job ran, the delay in seconds of a squeue_add_tv re-enqueue when one
happened, whether the timeouts counter was incremented, and how many log
frames were written. -/
structure KillEffects where
  stateAfter : Nat
  records : List Nat
  destroyed : Bool
  requeueDelay : Option Nat
  timeoutsInc : Bool
  logs : Nat
deriving Repr, DecidableEq

/-- Model of check_completion(cp, WNOHANG) (worker.c lines 297-325) for a
tracked job (cp and cp->ei->pid nonzero).  The oracle exited abstracts the
EINTR-retrying wait4 returning the pid or failing with ECHILD; in that case
the wait status is recorded, finish_job(cp, 0) sends the completion and
destroy_job runs (the function does not consult the state field).  Otherwise
nothing happens (result 0 gives return -1, an error gives -errno). -/
def check_completion (st : Nat) (exited : Bool) : KillEffects :=
  if exited then ⟨st, [0], true, none, false, 0⟩
  else ⟨st, [], false, none, false, 0⟩

/-- Model of kill_job (worker.c lines 340-402) as a function of the job's
state field, the reason, and the OS oracle.  With reason ETIME a successful
non-blocking check_completion ends the call after timeouts++ and a log.
Otherwise SIGKILL goes to the process group -pid (outcome killRes) and the
reap loop runs; on final ret == 0 an ESTALE job is re-enqueued at now + 5s
after a log, while a running job is marked ESTALE, has its completion sent by
finish_job(reason) and is re-enqueued at now + 1s; on a nonzero final ret the
job is reaped: finish_job(reason) runs unless the state is already ESTALE
(then only a log) and destroy_job runs. -/
def kill_job (st reason : Nat) (exited : Bool) (killRes : KillRes)
    (waits : List WaitRes) : KillEffects :=
  if reason = ETIME ∧ exited = true then
    let c := check_completion st exited
    { c with timeoutsInc := true, logs := c.logs + 1 }
  else
    let killLog : Nat := if killRes = KillRes.kerr then 1 else 0
    let lp := killWaitLoop (killRes == KillRes.esrch) waits
    if lp.1 = WaitRes.zero then
      if reason = ESTALE then ⟨st, [], false, some 5, false, killLog + 1⟩
      else ⟨ESTALE, [reason], false, some 1, false, killLog⟩
    else
      if st ≠ ESTALE then ⟨st, [reason], true, none, false, killLog⟩
      else ⟨st, [], true, none, false, killLog + 1⟩

/-- The lifecycle-relevant pieces of one tracked job: the state field (0 when
running, ESTALE once the completion was sent without a reap), how many of its
output descriptors are still open, how many completion records have been
written to the master for it, and whether destroy_job has run. -/
structure WJob where
  state : Nat
  openFds : Nat
  sent : Nat
  destroyed : Bool
deriving Repr, DecidableEq

/-- A job as spawn_job hands it to the event loop: running, both pipe
descriptors registered, nothing sent. -/
def initJob : WJob := ⟨0, 2, 0, false⟩

/-- The three event sources that can touch a tracked job, each carrying the
OS oracle of the corresponding code path: the reaper seeing this job's pid
come back from wait3 (reap_jobs); one of its output descriptors reaching EOF
or a hard read error, which closes the descriptor and runs
check_completion(WNOHANG) (gather_output, non-final); and its timer-queue
deadline firing, on which enter_worker calls kill_job with reason ESTALE for
a stale job and ETIME otherwise. -/
inductive JobEvent
| sigchld
| outputEof (exited : Bool)
| deadline (exited : Bool) (killRes : KillRes) (waits : List WaitRes)

/-- One event applied to one job.  A destroyed job receives no events:
destroy_job removed its pid from the process table (so reap_jobs skips it as
a lost child) and its entry from the timer queue, and its descriptors were
closed before destruction.  An outputEof event requires an open descriptor,
since gather_output is only ever invoked through the iobroker registration of
a still-open fd; finish_job closes both descriptors, so a job whose
completion was sent (in particular any ESTALE job) has none left.  A record
sent by finish_job closes both descriptors. -/
def stepJob (j : WJob) (e : JobEvent) : WJob :=
  if j.destroyed then j
  else
    match e with
    | JobEvent.sigchld =>
      if j.state ≠ ESTALE then { j with destroyed := true, sent := j.sent + 1, openFds := 0 }
      else { j with destroyed := true, openFds := 0 }
    | JobEvent.outputEof exited =>
      if j.openFds = 0 then j
      else
        let r := check_completion j.state exited
        { state := r.stateAfter,
          openFds := if r.destroyed ∨ r.records ≠ [] then 0 else j.openFds - 1,
          sent := j.sent + r.records.length,
          destroyed := r.destroyed }
    | JobEvent.deadline exited killRes waits =>
      let reason := if j.state = ESTALE then ESTALE else ETIME
      let r := kill_job j.state reason exited killRes waits
      { state := r.stateAfter,
        openFds := if r.destroyed ∨ r.records ≠ [] then 0 else j.openFds,
        sent := j.sent + r.records.length,
        destroyed := r.destroyed }

/-- A whole history of events against one spawned job. -/
def runJob (evs : List JobEvent) : WJob :=
  evs.foldl stepJob initJob

/-- Model of the chdir sequence at the top of enter_worker (worker.c lines
688-693), tracking the working directory through the two chdir calls.  The
source tests `if (!pwd || !chdir(pwd->pw_dir))` and inside it
`if (!chdir("/"))`: chdir returns 0 on success, so the outer branch is taken
when the passwd lookup fails or when the chdir to the home directory
SUCCEEDS, and when the chdir to the home directory fails nothing further
happens. -/
inductive Cwd
| initial
| home
| root
deriving Repr, DecidableEq

/-- The working directory after enter_worker's chdir logic, as a function of
whether getpwuid succeeds and whether each chdir would succeed. -/
def enter_worker_cwd (pwdFound chdirHomeOk chdirRootOk : Bool) : Cwd :=
  if ¬ pwdFound then
    (if chdirRootOk then Cwd.root else Cwd.initial)
  else if chdirHomeOk then
    (if chdirRootOk then Cwd.root else Cwd.home)
  else Cwd.initial

/-- Effects of a successful start_cmd (worker.c lines 506-532): the
descriptors put into non-blocking mode, the descriptors registered with the
iobroker, and the pid added to the process table by fanout_add. -/
structure StartEffects where
  nonblocked : List Nat
  registered : List Nat
  ptabAdd : List Nat
deriving Repr, DecidableEq

/-- Model of start_cmd: runcmd_open either fails (none when openOk is false)
or yields the two read descriptors and the child pid; a zero pid is also a
failure.  On success both descriptors get O_NONBLOCK (fcntl F_SETFL) and an
iobroker registration, and the pid goes into the process table. -/
def start_cmd (openOk : Bool) (outFd errFd pid : Nat) : Option StartEffects :=
  if ¬ openOk then none
  else if pid = 0 then none
  else some ⟨[outFd, errFd], [outFd, errFd], [pid]⟩

/-- A frame written to the master, as far as the supervisor model
distinguishes them: an error_msg record from job_error, a completion record
from finish_job with its reason, or a log frame from wlog. -/
inductive OutMsg
| errorMsg
| completion (reason : Nat)
| logMsg
deriving Repr, DecidableEq

/-- The supervisor-owned state the claims speak about: the started and
running_jobs counters, the timer queue as the list of its (pid, deadline)
entries, the process table as the list of pids it maps, the set of pids whose
state field is ESTALE, and the sequence of frames written to the master. -/
structure SupState where
  started : Nat
  running : Nat
  sq : List (Nat × Nat)
  ptab : List Nat
  stale : List Nat
  out : List OutMsg
deriving Repr, DecidableEq

/-- The worker's state when enter_worker reaches the event loop. -/
def supInit : SupState := ⟨0, 0, [], [], [], []⟩

/-- The frames one finish_job call writes: when running_jobs disagrees with
the timer-queue size it first writes two log frames (worker.c lines 249-254),
then always the completion record. -/
def finish_msgs (s : SupState) (reason : Nat) : List OutMsg :=
  (if s.running ≠ s.sq.length then [OutMsg.logMsg, OutMsg.logMsg] else [])
  ++ [OutMsg.completion reason]

/-- Model of destroy_job (worker.c lines 182-207) at the supervisor level:
squeue_remove drops the job's one timer-queue entry, running_jobs is
decremented, and fanout_remove drops its process-table entry (the freed job
also leaves the stale set). -/
def destroy_job_sup (pid : Nat) (s : SupState) : SupState :=
  { s with sq := s.sq.eraseP (fun e => e.1 == pid),
           running := s.running - 1,
           ptab := s.ptab.erase pid,
           stale := s.stale.erase pid }

/-- Model of spawn_job (worker.c lines 586-618) handling one parsed inbound
message at time now.  A parse failure or a missing command line only sends an
error_msg record.  Otherwise the deadline timeout + now is enqueued and
started and running_jobs are incremented, then start_cmd runs: on its failure
an error_msg record is sent, the just-enqueued timer entry is removed again
and running_jobs is decremented (started stays incremented); on success the
process-table entry from start_cmd is appended. -/
def spawn_job (s : SupState) (now pid outFd errFd timeout : Nat)
    (parseFail cmdMissing openOk : Bool) : SupState :=
  if parseFail then { s with out := s.out ++ [OutMsg.errorMsg] }
  else if cmdMissing then { s with out := s.out ++ [OutMsg.errorMsg] }
  else
    let s1 := { s with sq := (pid, now + timeout) :: s.sq,
                       started := s.started + 1,
                       running := s.running + 1 }
    match start_cmd openOk outFd errFd pid with
    | none =>
      { s1 with out := s1.out ++ [OutMsg.errorMsg],
                sq := s1.sq.eraseP (fun e => e.1 == pid),
                running := s1.running - 1 }
    | some ef =>
      { s1 with ptab := s1.ptab ++ ef.ptabAdd }

/-- The events of one supervisor-loop iteration that touch the tracked-job
bookkeeping: a complete inbound message arriving (receive_command calling
spawn_job), wait3 handing a pid to reap_jobs, a descriptor EOF running
check_completion, and the timer-queue head firing (enter_worker calling
kill_job).  Each carries the OS oracle of its code path. -/
inductive SupEvent
| recv (now pid outFd errFd timeout : Nat) (parseFail cmdMissing openOk : Bool)
| reap (pid : Nat)
| outputEof (pid : Nat) (exited : Bool)
| deadline (now pid : Nat) (exited : Bool) (killRes : KillRes) (waits : List WaitRes)

/-- One supervisor event applied to the supervisor state.  reap_jobs drops a
pid absent from the process table (a reaped lost child); a deadline can only
fire for a job holding a timer-queue entry, and dispatches kill_job with
ESTALE exactly for jobs whose state field is ESTALE; the effects of kill_job
are applied: completion records via finish_job, destroy_job, or the
squeue_remove plus squeue_add_tv re-enqueue of the same job. -/
def supStep (s : SupState) (e : SupEvent) : SupState :=
  match e with
  | SupEvent.recv now pid outFd errFd timeout parseFail cmdMissing openOk =>
    spawn_job s now pid outFd errFd timeout parseFail cmdMissing openOk
  | SupEvent.reap pid =>
    if pid ∈ s.ptab then
      let st := if pid ∈ s.stale then ESTALE else 0
      let msgs := if st ≠ ESTALE then finish_msgs s st else []
      destroy_job_sup pid { s with out := s.out ++ msgs }
    else s
  | SupEvent.outputEof pid exited =>
    if pid ∈ s.ptab then
      let r := check_completion (if pid ∈ s.stale then ESTALE else 0) exited
      if r.destroyed then destroy_job_sup pid { s with out := s.out ++ finish_msgs s 0 }
      else s
    else s
  | SupEvent.deadline now pid exited killRes waits =>
    if pid ∈ s.sq.map Prod.fst then
      let st := if pid ∈ s.stale then ESTALE else 0
      let reason := if st = ESTALE then ESTALE else ETIME
      let r := kill_job st reason exited killRes waits
      let s1 := { s with out := s.out ++ (r.records.map fun rs => finish_msgs s rs).flatten }
      if r.destroyed then destroy_job_sup pid s1
      else
        match r.requeueDelay with
        | some d =>
          { s1 with sq := (pid, now + d) :: s1.sq.eraseP (fun en => en.1 == pid),
                    stale := if r.stateAfter = ESTALE ∧ pid ∉ s1.stale
                             then pid :: s1.stale else s1.stale }
        | none => s1
    else s

/-- A whole history of supervisor events from worker start. -/
def runSup (evs : List SupEvent) : SupState :=
  evs.foldl supStep supInit

/-- The response keys finish_job itself appends.  Statements about key
presence in a completion record assume the inbound request does not reuse
them (the master never does). -/
def respReservedKeys : List String :=
  ["wait_status", "start", "stop", "runtime", "exited_ok", "error_code",
   "ru_utime", "ru_stime", "ru_minflt", "ru_majflt", "ru_inblock", "ru_oublock",
   "outerr", "outstd"]

/-- The supervisor bookkeeping invariant: the process table holds exactly
the pids of the timer-queue entries (as a multiset), and running_jobs equals
the timer-queue size. -/
def SupInv (s : SupState) : Prop :=
  List.Perm s.ptab (s.sq.map Prod.fst) ∧ s.running = s.sq.length

/-- The lifecycle invariant of a tracked job: a running job has sent
nothing; a live ESTALE job has sent exactly one record and has no open
descriptor (finish_job closed both before or while marking it stale); a
destroyed job has sent exactly one record. -/
def JobInv (j : WJob) : Prop :=
  (j.destroyed = false ∧ j.state = 0 ∧ j.sent = 0) ∨
  (j.destroyed = false ∧ j.state = ESTALE ∧ j.sent = 1 ∧ j.openFds = 0) ∨
  (j.destroyed = true ∧ j.sent = 1)

section Lemmas

/-- Every job event preserves the lifecycle invariant. -/
theorem stepJob_inv (j : WJob) (e : JobEvent) (h : JobInv j) :
    JobInv (stepJob j e) := by
  rcases h with ⟨hd, hs, hn⟩ | ⟨hd, hs, hn, hf⟩ | ⟨hd, hn⟩
  · cases e with
    | sigchld => simp [JobInv, stepJob, hd, hs, hn, ESTALE]
    | outputEof exited =>
      by_cases hF : j.openFds = 0
      · simp [JobInv, stepJob, hd, hs, hn, hF]
      · cases exited <;>
          simp [JobInv, stepJob, check_completion, hd, hs, hn, hF, ESTALE]
    | deadline exited killRes waits =>
      cases exited with
      | true =>
        simp [JobInv, stepJob, kill_job, check_completion, hd, hs, hn, ETIME, ESTALE]
      | false =>
        by_cases hz : (killWaitLoop (killRes == KillRes.esrch) waits).1 = WaitRes.zero <;>
          simp [JobInv, stepJob, kill_job, hd, hs, hn, hz, ETIME, ESTALE]
  · cases e with
    | sigchld => simp [JobInv, stepJob, hd, hs, hn, ESTALE]
    | outputEof exited => simp [JobInv, stepJob, hd, hs, hn, hf]
    | deadline exited killRes waits =>
      by_cases hz : (killWaitLoop (killRes == KillRes.esrch) waits).1 = WaitRes.zero <;>
        cases exited <;>
          simp [JobInv, stepJob, kill_job, hd, hs, hn, hf, hz, ETIME, ESTALE]
  · cases e <;> simp [JobInv, stepJob, hd, hn]

/-- The invariant holds along any event history of a spawned job. -/
theorem runJob_inv (evs : List JobEvent) : JobInv (runJob evs) := by
  have general : ∀ (l : List JobEvent) (j : WJob), JobInv j → JobInv (l.foldl stepJob j) := by
    intro l
    induction l with
    | nil => intro j h; exact h
    | cons e t ih => intro j h; exact ih _ (stepJob_inv j e h)
  exact general evs initJob (Or.inl ⟨rfl, rfl, rfl⟩)

/-- Taking up to the first NUL is the same as keeping the maximal NUL-free
prefix. -/
theorem take_indexOf_zero (l : List Nat) :
    l.take (l.indexOf 0) = l.takeWhile (fun b => b != 0) := by
  induction l with
  | nil => rfl
  | cons b t ih =>
    by_cases hb : b = 0
    · subst hb
      simp [List.indexOf_cons, List.takeWhile_cons]
    · have hbeq : (b == 0) = false := by simpa using hb
      simp [List.indexOf_cons, List.takeWhile_cons, hbeq, List.take_succ_cons, ih, hb]

/-- strip_nul_bytes keeps exactly the maximal NUL-free prefix. -/
theorem strip_nul_bytes_eq_takeWhile (l : List Nat) :
    strip_nul_bytes l = l.takeWhile (fun b => b != 0) := by
  cases l with
  | nil => rfl
  | cons b t =>
    by_cases hb : b = 0
    · subst hb
      simp [strip_nul_bytes, List.takeWhile_cons]
    · simp only [strip_nul_bytes, if_neg hb]
      exact take_indexOf_zero (b :: t)

/-- One gather_output invocation appends exactly the bytes of its positive
reads, in order. -/
theorem gather_output_buf (evs : List ReadEv) (io : IoBuf) :
    (gather_output io evs).1.buf = io.buf ++ (gather_output io evs).2.flatten := by
  induction evs generalizing io with
  | nil => simp [gather_output]
  | cons ev rest ih =>
    cases ev <;> simp [gather_output, ih, List.append_assoc]

/-- Across any sequence of invocations, the buffer is the concatenation of
all logged positive reads. -/
theorem run_gather_buf (invs : List (List ReadEv)) (io : IoBuf) :
    (run_gather io invs).1.buf = io.buf ++ (run_gather io invs).2.flatten := by
  induction invs generalizing io with
  | nil => simp [run_gather]
  | cons inv invs ih =>
    by_cases h : io.fdOpen = true
    · simp [run_gather, h, ih, gather_output_buf, List.append_assoc]
    · have h2 : io.fdOpen = false := by simpa using h
      simp [run_gather, h2, ih]

/-- Erasing a timer-queue entry by pid commutes with projecting the pids. -/
theorem map_fst_eraseP (l : List (Nat × Nat)) (p : Nat) :
    (l.eraseP (fun e => e.1 == p)).map Prod.fst = (l.map Prod.fst).erase p := by
  induction l with
  | nil => rfl
  | cons a t ih =>
    by_cases h : a.1 = p
    · simp [List.eraseP_cons, List.erase_cons, h]
    · simp [List.eraseP_cons, List.erase_cons, h, ih]

/-- Removing a tracked job's timer entry shortens the queue by one. -/
theorem length_eraseP_sq (sq : List (Nat × Nat)) (pid : Nat)
    (hqm : pid ∈ sq.map Prod.fst) :
    (sq.eraseP (fun e => e.1 == pid)).length = sq.length - 1 := by
  have h1 := congrArg List.length (map_fst_eraseP sq pid)
  rw [List.length_map, List.length_erase_of_mem hqm, List.length_map] at h1
  exact h1

/-- destroy_job preserves the supervisor invariant when the destroyed job is
tracked. -/
theorem destroy_inv (pid : Nat) (s : SupState) (h : SupInv s)
    (hqm : pid ∈ s.sq.map Prod.fst) : SupInv (destroy_job_sup pid s) := by
  obtain ⟨hp, hr⟩ := h
  constructor
  · simp only [destroy_job_sup]
    rw [map_fst_eraseP]
    exact hp.erase pid
  · simp only [destroy_job_sup]
    rw [length_eraseP_sq s.sq pid hqm, hr]

/-- spawn_job preserves the supervisor invariant on every path. -/
theorem spawn_inv (s : SupState) (now pid outFd errFd timeout : Nat)
    (parseFail cmdMissing openOk : Bool) (h : SupInv s) :
    SupInv (spawn_job s now pid outFd errFd timeout parseFail cmdMissing openOk) := by
  obtain ⟨hp, hr⟩ := h
  cases parseFail with
  | true => exact ⟨hp, hr⟩
  | false =>
  cases cmdMissing with
  | true => exact ⟨hp, hr⟩
  | false =>
  have he : ((pid, now + timeout) :: s.sq).eraseP (fun e => e.1 == pid) = s.sq :=
    List.eraseP_cons_of_pos (by simp)
  cases openOk with
  | false =>
    refine ⟨?_, ?_⟩
    · simpa [spawn_job, start_cmd, he] using hp
    · simp [spawn_job, start_cmd, he, hr]
  | true =>
    by_cases hp0 : pid = 0
    · refine ⟨?_, ?_⟩
      · simpa [spawn_job, start_cmd, hp0, he] using hp
      · simp [spawn_job, start_cmd, hp0, he, hr]
    · refine ⟨?_, ?_⟩
      · simp only [spawn_job, start_cmd, hp0]
        simpa using (List.perm_append_singleton pid s.ptab).trans (hp.cons pid)
      · simp [spawn_job, start_cmd, hp0, hr]

/-- Every supervisor event preserves the supervisor invariant. -/
theorem supStep_inv (s : SupState) (e : SupEvent) (h : SupInv s) :
    SupInv (supStep s e) := by
  obtain ⟨hp, hr⟩ := h
  cases e with
  | recv now pid outFd errFd timeout parseFail cmdMissing openOk =>
    exact spawn_inv s now pid outFd errFd timeout parseFail cmdMissing openOk ⟨hp, hr⟩
  | reap pid =>
    simp only [supStep]
    by_cases hin : pid ∈ s.ptab
    · rw [if_pos hin]
      exact destroy_inv pid _ ⟨hp, hr⟩ (hp.mem_iff.mp hin)
    · rw [if_neg hin]
      exact ⟨hp, hr⟩
  | outputEof pid exited =>
    simp only [supStep]
    by_cases hin : pid ∈ s.ptab
    · rw [if_pos hin]
      cases exited with
      | true =>
        simp only [check_completion, if_pos rfl]
        exact destroy_inv pid _ ⟨hp, hr⟩ (hp.mem_iff.mp hin)
      | false => exact ⟨hp, hr⟩
    · rw [if_neg hin]
      exact ⟨hp, hr⟩
  | deadline now pid exited killRes waits =>
    simp only [supStep]
    by_cases hqm : pid ∈ s.sq.map Prod.fst
    · rw [if_pos hqm]
      generalize kill_job _ _ exited killRes waits = r
      by_cases hds : r.destroyed = true
      · rw [if_pos hds]
        exact destroy_inv pid _ ⟨hp, hr⟩ hqm
      · rw [if_neg hds]
        cases hdq : r.requeueDelay with
        | none => exact ⟨hp, hr⟩
        | some d =>
          have hpos : 0 < s.sq.length := by
            rcases List.mem_map.mp hqm with ⟨en, hen, _⟩
            exact List.length_pos.mpr (List.ne_nil_of_mem hen)
          refine ⟨?_, ?_⟩
          · show List.Perm s.ptab (((pid, now + d) :: _).map Prod.fst)
            rw [List.map_cons, map_fst_eraseP]
            exact hp.trans (List.perm_cons_erase hqm)
          · show s.running = ((pid, now + d) :: _).length
            rw [List.length_cons, length_eraseP_sq s.sq pid hqm, hr]
            omega
    · rw [if_neg hqm]
      exact ⟨hp, hr⟩

/-- The supervisor invariant holds along every event history. -/
theorem runSup_inv (evs : List SupEvent) : SupInv (runSup evs) := by
  have general : ∀ (l : List SupEvent) (s : SupState), SupInv s → SupInv (l.foldl supStep s) := by
    intro l
    induction l with
    | nil => intro s h; exact h
    | cons e t ih => intro s h; exact ih _ (supStep_inv s e h)
  exact general evs supInit ⟨List.Perm.refl _, rfl⟩

/-- The key scan keeps, for the timeout field, the strtoul parse of the last
pair whose key is "timeout" (later occurrences overwrite earlier ones). -/
theorem foldl_parse_timeout (kvv : List (String × String)) (cp : ChildProcess) :
    (kvv.foldl parseOneKv cp).timeout =
      match lastValue "timeout" kvv with
      | some v => strtoul0 v.data % 2 ^ 32
      | none => cp.timeout := by
  induction kvv generalizing cp with
  | nil => rfl
  | cons kv t ih =>
    rw [List.foldl_cons, ih]
    cases h : lastValue "timeout" t with
    | some v => simp [lastValue, h]
    | none =>
      simp only [lastValue, h]
      by_cases hk : kv.1 = "timeout"
      · have hc : ¬ kv.1 = "command" := by rw [hk]; decide
        have hj : ¬ kv.1 = "job_id" := by rw [hk]; decide
        simp [parseOneKv, hk, hc, hj]
      · by_cases hc : kv.1 = "command" <;> by_cases hj : kv.1 = "job_id" <;>
          simp [parseOneKv, hk, hc, hj]

end Lemmas

section Claims

/-- C3: the specification requires enter_worker to change to the invoking
user's home directory and to fall back to "/" only when the lookup or the
chdir to the home directory fails.  The code tests `!chdir(pwd->pw_dir)`,
which is true exactly when that chdir SUCCEEDS (chdir returns 0 on success),
so the worker ends up in "/" precisely in the normal case where the home
directory chdir worked, and stays in its initial directory when that chdir
failed; only the no-passwd-entry case behaves as specified.  This theorem
evaluates the embedded chdir logic on those three inputs. -/
theorem enter_worker_cwd_inverted :
    enter_worker_cwd true true true = Cwd.root ∧
    enter_worker_cwd true false true = Cwd.initial ∧
    enter_worker_cwd false true true = Cwd.root := by decide

/-- C10 counterexample: a formatted message of 8183 bytes makes the whole
frame (4-byte prefix, message, pair separator, 4 delimiter bytes) exactly
8192 bytes, which the claim says is dropped, yet wlog sends it: the code's
guard is `len + 7 >= 8192`, which only fires from formatted length 8185. -/
theorem wlog_len_8183_sent :
    4 + (List.replicate 8183 (97 : Nat)).length + 1 + MSG_DELIM.length ≥ 8192 ∧
    wlog (some (List.replicate 8183 (97 : Nat))) ≠ none := by
  constructor
  · rw [List.length_replicate]
    norm_num [MSG_DELIM]
  · simp only [wlog, List.length_replicate]
    norm_num
    exact Option.some_ne_none _

/-- C10 amended: wlog silently drops a log record exactly when formatting
fails or the formatted length is at least 8185 (so the guard
len + 7 >= 8192 fires); any message it does send goes out as one complete
frame "log=" ++ message ++ NUL ++ delimiter of formatted length + 9 bytes,
never truncated (the vsnprintf bound of 8185 exceeds every length passing
the guard). -/
theorem wlog_drop_spec (msg : List Nat) :
    (8185 ≤ msg.length → wlog (some msg) = none) ∧
    (msg.length < 8185 →
      wlog (some msg) = some (logHeader ++ msg ++ [0] ++ MSG_DELIM) ∧
      (logHeader ++ msg ++ [0] ++ MSG_DELIM).length = msg.length + 9) ∧
    wlog none = none := by
  refine ⟨fun h => ?_, fun h => ⟨?_, ?_⟩, rfl⟩
  · simp only [wlog]
    rw [if_pos (by omega)]
  · simp only [wlog]
    rw [if_neg (by omega)]
  · simp only [List.length_append, logHeader, MSG_DELIM, List.length_cons,
      List.length_nil]
    omega

/-- C10 witness: the amended statement applied to a message of length 8185
(dropped) and to a one-byte message (sent in full). -/
theorem wlog_drop_spec_witness :
    wlog (some (List.replicate 8185 (97 : Nat))) = none ∧
    wlog (some [97]) = some (logHeader ++ [97] ++ [0] ++ MSG_DELIM) := by
  refine ⟨(wlog_drop_spec (List.replicate 8185 97)).1 ?_, ?_⟩
  · rw [List.length_replicate]
  · exact ((wlog_drop_spec [97]).2.1 (by norm_num)).1

/-- C6: at completion-record time each output buffer holds the byte-exact
concatenation of all positive read() returns from its pipe, and
strip_nul_bytes truncates it at the first NUL of that concatenation (empty
when the concatenation is empty or begins with NUL), which is its maximal
NUL-free prefix. -/
theorem output_buffer_spec (invs : List (List ReadEv)) :
    (run_gather ⟨[], true⟩ invs).1.buf = (run_gather ⟨[], true⟩ invs).2.flatten ∧
    strip_nul_bytes (run_gather ⟨[], true⟩ invs).1.buf
      = ((run_gather ⟨[], true⟩ invs).2.flatten).takeWhile (fun b => b != 0) := by
  have hb := run_gather_buf invs ⟨[], true⟩
  simp only at hb
  refine ⟨by simpa using hb, ?_⟩
  rw [strip_nul_bytes_eq_takeWhile, hb]
  simp

/-- C1: along every interleaving of reaper, descriptor-EOF and timer events
against a spawned (Running) job, at most one completion record is ever
written for it, a destroyed job has had exactly one written, and among live
jobs exactly the Stale ones have had their record written already, which is
why both reap_jobs and kill_job skip the send for them: the natural-exit
path and the timeout path never both send. -/
theorem job_exactly_one_record (evs : List JobEvent) :
    (runJob evs).sent ≤ 1 ∧
    ((runJob evs).destroyed = true → (runJob evs).sent = 1) ∧
    ((runJob evs).destroyed = false →
      ((runJob evs).sent = 1 ↔ (runJob evs).state = ESTALE)) := by
  have h := runJob_inv evs
  rcases h with ⟨hd, hs, hn⟩ | ⟨hd, hs, hn, hf⟩ | ⟨hd, hn⟩
  · refine ⟨by omega, fun hc => ?_, fun _ => ?_⟩
    · rw [hd] at hc
      cases hc
    · rw [hn, hs]
      norm_num [ESTALE]
  · refine ⟨by omega, fun hc => ?_, fun _ => ?_⟩
    · rw [hd] at hc
      cases hc
    · rw [hn, hs]
      simp
  · refine ⟨by omega, fun _ => hn, fun hc => ?_⟩
    rw [hd] at hc
    cases hc

/-- C1 witness: a job reaped by the SIGCHLD path is destroyed with exactly
one record sent. -/
theorem job_exactly_one_record_witness :
    (runJob [JobEvent.sigchld]).destroyed = true ∧
    (runJob [JobEvent.sigchld]).sent = 1 := by
  have hd : (runJob [JobEvent.sigchld]).destroyed = true := by decide
  exact ⟨hd, (job_exactly_one_record [JobEvent.sigchld]).2.1 hd⟩

/-- C4 counterexample: the inbound value "010" has decimal reading 10, which
is non-zero, so the claim makes the effective timeout 10; but
parse_command_kvvec parses it with strtoul base 0, which treats the leading
zero as an octal prefix and yields 8. -/
theorem timeout_octal_counterexample :
    specDecimalValue "010".data = some 10 ∧
    (parse_command_kvvec [("timeout", "010")]).timeout = 8 ∧
    (parse_command_kvvec [("timeout", "010")]).timeout ≠ 10 := by decide

/-- C4 amended: the effective timeout is computed from the value of the last
`timeout` pair by strtoul with base 0 (C integer-literal syntax: 0x prefix is
hexadecimal, a leading 0 is octal, otherwise decimal; clamped at ULONG_MAX)
truncated to unsigned int, and equals that number when it is non-zero and 60
when the key is absent or the parse yields zero. -/
theorem timeout_parse_spec (kvv : List (String × String)) :
    (parse_command_kvvec kvv).timeout =
      match lastValue "timeout" kvv with
      | none => 60
      | some v =>
        if strtoul0 v.data % 2 ^ 32 = 0 then 60 else strtoul0 v.data % 2 ^ 32 := by
  have h := foldl_parse_timeout kvv ⟨none, 0, 0⟩
  cases hl : lastValue "timeout" kvv with
  | none =>
    have h0 : (List.foldl parseOneKv ⟨none, 0, 0⟩ kvv).timeout = 0 := by
      rw [h, hl]
    unfold parse_command_kvvec
    rw [apply_ite ChildProcess.timeout, h0]
    simp
  | some v =>
    have h0 : (List.foldl parseOneKv ⟨none, 0, 0⟩ kvv).timeout
        = strtoul0 v.data % 2 ^ 32 := by
      rw [h, hl]
    unfold parse_command_kvvec
    rw [apply_ite ChildProcess.timeout, h0]

/-- C2: kill_job on a running job with reason ETIME.  A successful
non-blocking reap (check_completion) increments timeouts, logs and returns
without kill_job adding any record beyond the one check_completion's
finish_job already sent; otherwise SIGKILL goes to the process group and the
waitpid loop runs: a loop ending with a nonzero ret (the pid was returned, or
an errno such as ECHILD) sends the completion with reason ETIME and destroys
the job, while a loop ending with ret == 0 sends the completion now, marks
the state ESTALE and re-enqueues the job at now + 1 second.  The final
conjunct records that after kill() failed with ESRCH the loop stops at the
first waitpid outcome, so any nonzero first outcome lands in the
reaped-and-destroyed branch. -/
theorem kill_job_etime_spec (exited : Bool) (killRes : KillRes)
    (waits : List WaitRes) :
    (exited = true →
      kill_job 0 ETIME exited killRes waits =
        { check_completion 0 true with timeoutsInc := true, logs := 1 }) ∧
    (exited = false →
      ((killWaitLoop (killRes == KillRes.esrch) waits).1 ≠ WaitRes.zero →
        kill_job 0 ETIME exited killRes waits =
          ⟨0, [ETIME], true, none, false,
            if killRes = KillRes.kerr then 1 else 0⟩) ∧
      ((killWaitLoop (killRes == KillRes.esrch) waits).1 = WaitRes.zero →
        kill_job 0 ETIME exited killRes waits =
          ⟨ESTALE, [ETIME], false, some 1, false,
            if killRes = KillRes.kerr then 1 else 0⟩)) ∧
    (killRes = KillRes.esrch →
      ∀ w ws, waits = w :: ws →
        killWaitLoop (killRes == KillRes.esrch) waits = (w, true)) := by
  refine ⟨fun he => ?_, fun he => ⟨fun hnz => ?_, fun hz => ?_⟩, fun hk w ws hw => ?_⟩
  · subst he
    simp [kill_job, ETIME, check_completion]
  · subst he
    simp only [kill_job, ETIME, ESTALE] at hnz ⊢
    norm_num
    exact hnz
  · subst he
    simp only [kill_job, ETIME, ESTALE] at hz ⊢
    norm_num
    exact hz
  · subst hk
    subst hw
    simp [killWaitLoop]

/-- C2 witness: the theorem applied with a child that did not exit early,
kill() succeeding and a single waitpid returning the pid. -/
theorem kill_job_etime_spec_witness :
    kill_job 0 ETIME false KillRes.ok [WaitRes.child] =
      ⟨0, [ETIME], true, none, false, 0⟩ := by
  have h := (kill_job_etime_spec false KillRes.ok [WaitRes.child]).2.1 rfl
  simpa using h.1 (by decide)

/-- C5: kill_job on a job in the Stale state (dispatched with reason ESTALE
by the supervisor loop).  A reap that succeeds (nonzero final waitpid ret)
destroys the job with no completion record at all (only a log frame); one
that fails re-enqueues the job at now + 5 seconds, again without any record;
and the retry is unbounded: any number of failing retries leaves the stale
job exactly in place. -/
theorem kill_job_stale_spec (exited : Bool) (killRes : KillRes)
    (waits : List WaitRes) :
    ((killWaitLoop (killRes == KillRes.esrch) waits).1 ≠ WaitRes.zero →
      kill_job ESTALE ESTALE exited killRes waits =
        ⟨ESTALE, [], true, none, false,
          (if killRes = KillRes.kerr then 1 else 0) + 1⟩) ∧
    ((killWaitLoop (killRes == KillRes.esrch) waits).1 = WaitRes.zero →
      kill_job ESTALE ESTALE exited killRes waits =
        ⟨ESTALE, [], false, some 5, false,
          (if killRes = KillRes.kerr then 1 else 0) + 1⟩) ∧
    (∀ n : Nat,
      List.foldl stepJob ⟨ESTALE, 0, 1, false⟩
          (List.replicate n (JobEvent.deadline false KillRes.ok [WaitRes.zero]))
        = ⟨ESTALE, 0, 1, false⟩) := by
  refine ⟨fun hnz => ?_, fun hz => ?_, fun n => ?_⟩
  · simp only [kill_job, ETIME, ESTALE] at hnz ⊢
    norm_num
    exact hnz
  · simp only [kill_job, ETIME, ESTALE] at hz ⊢
    norm_num
    exact hz
  · induction n with
    | zero => rfl
    | succ m ih =>
      rw [List.replicate_succ, List.foldl_cons]
      have hstep : stepJob ⟨ESTALE, 0, 1, false⟩
          (JobEvent.deadline false KillRes.ok [WaitRes.zero])
          = ⟨ESTALE, 0, 1, false⟩ := by decide
      rw [hstep, ih]

/-- C5 witness: the theorem applied with a reap that succeeds at once, and
three failing retries. -/
theorem kill_job_stale_spec_witness :
    kill_job ESTALE ESTALE false KillRes.ok [WaitRes.child] =
      ⟨ESTALE, [], true, none, false, 1⟩ ∧
    List.foldl stepJob ⟨ESTALE, 0, 1, false⟩
        (List.replicate 3 (JobEvent.deadline false KillRes.ok [WaitRes.zero]))
      = ⟨ESTALE, 0, 1, false⟩ := by
  refine ⟨?_, (kill_job_stale_spec false KillRes.ok [WaitRes.zero]).2.2 3⟩
  have h := (kill_job_stale_spec false KillRes.ok [WaitRes.child]).1 (by decide)
  simpa using h

/-- C7 counterexample: a completion record built with reason ETIME (a
timeout) carries exited_ok=0 but none of the ru_* keys, refuting "the ru_*
keys are present in every completion record". -/
theorem finish_resp_no_rusage_on_error :
    "ru_utime" ∉ (finish_job_resp [("job_id", "9")] 9 (0, 0) (1, 0) "1.0" ETIME
        ⟨(0, 0), (0, 0), 0, 0, 0, 0⟩ "" "").map Prod.fst ∧
    ("exited_ok", "0") ∈ finish_job_resp [("job_id", "9")] 9 (0, 0) (1, 0) "1.0" ETIME
        ⟨(0, 0), (0, 0), 0, 0, 0, 0⟩ "" "" := by decide

/-- C7 amended: the completion record's keys appear in the order: every
inbound key except env, then wait_status, start, stop, runtime, exited_ok,
then on a normal reap (reason 0) the six ru_* keys and on an error
(reason != 0) the error_code key, then outerr and outstd.  error_code is
present iff the record carries exited_ok=0, which happens iff the reason is
non-zero, and the ru_* keys are present iff the record carries exited_ok=1 —
not in every record as the claim stated. -/
theorem finish_resp_key_order (request : List (String × String)) (ret : Int)
    (start stop : Nat × Nat) (runtime : String) (reason : Nat) (ru : Rusage)
    (outerr outstd : String)
    (hreq : ∀ kv ∈ request, kv.1 ∉ respReservedKeys) :
    (finish_job_resp request ret start stop runtime reason ru outerr outstd).map Prod.fst =
      (request.filter (fun kv => decide (¬ (kv.1.length = 3 ∧ kv.1 = "env")))).map Prod.fst
      ++ ["wait_status", "start", "stop", "runtime", "exited_ok"]
      ++ (if reason = 0 then
            ["ru_utime", "ru_stime", "ru_minflt", "ru_majflt", "ru_inblock", "ru_oublock"]
          else ["error_code"])
      ++ ["outerr", "outstd"] ∧
    (("exited_ok", "0")
        ∈ finish_job_resp request ret start stop runtime reason ru outerr outstd
      ↔ reason ≠ 0) ∧
    ("error_code"
        ∈ (finish_job_resp request ret start stop runtime reason ru outerr outstd).map Prod.fst
      ↔ ("exited_ok", "0")
        ∈ finish_job_resp request ret start stop runtime reason ru outerr outstd) ∧
    ("ru_utime"
        ∈ (finish_job_resp request ret start stop runtime reason ru outerr outstd).map Prod.fst
      ↔ reason = 0) := by
  have hkey : ∀ k ∈ respReservedKeys,
      k ∉ (request.filter
        (fun kv => decide (¬ (kv.1.length = 3 ∧ kv.1 = "env")))).map Prod.fst := by
    intro k hk hmem
    rcases List.mem_map.mp hmem with ⟨kv, hkv, rfl⟩
    exact hreq kv (List.mem_filter.mp hkv).1 hk
  have hmemv : ∀ (k v : String), k ∈ respReservedKeys → (k, v) ∉ request :=
    fun k v hk hm => hreq (k, v) hm hk
  have hex : ∀ v, ("exited_ok", v) ∉ request := fun v => hmemv _ v (by decide)
  have herr : ∀ v, ("error_code", v) ∉ request := fun v => hmemv _ v (by decide)
  have hru : ∀ v, ("ru_utime", v) ∉ request := fun v => hmemv _ v (by decide)
  refine ⟨?_, ?_, ?_, ?_⟩
  · by_cases h0 : reason = 0 <;> simp [finish_job_resp, h0]
  · by_cases h0 : reason = 0 <;>
      simp [finish_job_resp, h0, List.mem_append, hex]
  · by_cases h0 : reason = 0 <;>
      simp [finish_job_resp, h0, List.mem_append, hex, herr]
  · by_cases h0 : reason = 0 <;>
      simp [finish_job_resp, h0, List.mem_append, hru]

/-- C7 witness: the amended statement applied to a concrete successful job,
yielding the full key order with the rusage keys. -/
theorem finish_resp_key_order_witness :
    (finish_job_resp [("job_id", "9")] 0 (0, 0) (1, 0) "1.0" 0
        ⟨(0, 0), (0, 0), 0, 0, 0, 0⟩ "" "").map Prod.fst =
      ["job_id", "wait_status", "start", "stop", "runtime", "exited_ok",
       "ru_utime", "ru_stime", "ru_minflt", "ru_majflt", "ru_inblock",
       "ru_oublock", "outerr", "outstd"] := by
  have h := (finish_resp_key_order [("job_id", "9")] 0 (0, 0) (1, 0) "1.0" 0
      ⟨(0, 0), (0, 0), 0, 0, 0, 0⟩ "" "" (by decide)).1
  rw [h]
  decide

/-- C8: at every quiescent point of the supervisor loop (that is, in every
state reachable by any interleaving of spawn, reap, descriptor-EOF and timer
events), running_jobs equals the timer-queue size and the process-table
size; and the violation check in finish_job writes log frames to the master
whenever the counter disagrees with the timer-queue size, while the loop
proceeds (no event aborts the worker in the model). -/
theorem supervisor_size_invariant (evs : List SupEvent) :
    ((runSup evs).running = (runSup evs).sq.length ∧
     (runSup evs).running = (runSup evs).ptab.length) ∧
    (∀ (s : SupState) (r : Nat), s.running ≠ s.sq.length →
      OutMsg.logMsg ∈ finish_msgs s r) := by
  constructor
  · obtain ⟨hp, hr⟩ := runSup_inv evs
    refine ⟨hr, ?_⟩
    rw [hp.length_eq, List.length_map]
    exact hr
  · intro s r hne
    simp [finish_msgs, hne]

/-- C8 witness: the invariant after a successful spawn, and the logging of a
mismatched state. -/
theorem supervisor_size_invariant_witness :
    (runSup [SupEvent.recv 0 5 7 8 10 false false true]).running
      = (runSup [SupEvent.recv 0 5 7 8 10 false false true]).sq.length ∧
    OutMsg.logMsg ∈ finish_msgs ⟨0, 1, [], [], [], []⟩ 0 := by
  exact ⟨(supervisor_size_invariant [SupEvent.recv 0 5 7 8 10 false false true]).1.1,
         (supervisor_size_invariant []).2 ⟨0, 1, [], [], [], []⟩ 0 (by decide)⟩

/-- C9 counterexample: when the spawn primitive fails, the claim says both
counters are as before the attempt, but spawn_job leaves started
incremented: only running_jobs is rolled back (worker.c lines 609-616
increment both before calling the callback and decrement only
running_jobs on failure). -/
theorem spawn_fail_started_counterexample :
    (spawn_job supInit 0 5 7 8 10 false false false).started ≠ supInit.started ∧
    (spawn_job supInit 0 5 7 8 10 false false false).started = supInit.started + 1 := by
  decide

/-- C9 amended: on spawn-primitive failure an error_msg record is sent and
the job is dropped untracked — the process table, timer queue and
running_jobs end up exactly as before — but the started counter remains
incremented by one (it counts spawn attempts that passed parsing, not
successful spawns).  On success both output descriptors are put in
non-blocking mode and registered with the multiplexer, the pid enters the
process table, the deadline start + timeout is enqueued, and started and
running_jobs each grow by one. -/
theorem spawn_job_effects (s : SupState) (now pid outFd errFd timeout : Nat)
    (openOk : Bool) :
    (openOk = false ∨ pid = 0 →
      spawn_job s now pid outFd errFd timeout false false openOk =
        { s with out := s.out ++ [OutMsg.errorMsg], started := s.started + 1 }) ∧
    (openOk = true → pid ≠ 0 →
      spawn_job s now pid outFd errFd timeout false false openOk =
        { s with sq := (pid, now + timeout) :: s.sq,
                 started := s.started + 1,
                 running := s.running + 1,
                 ptab := s.ptab ++ [pid] } ∧
      start_cmd openOk outFd errFd pid =
        some ⟨[outFd, errFd], [outFd, errFd], [pid]⟩) := by
  have he : ((pid, now + timeout) :: s.sq).eraseP (fun e => e.1 == pid) = s.sq :=
    List.eraseP_cons_of_pos (by simp)
  refine ⟨fun hf => ?_, fun ho hpid => ⟨?_, ?_⟩⟩
  · rcases hf with hf | hf
    · subst hf
      simp [spawn_job, start_cmd, he]
    · subst hf
      cases openOk <;> simp [spawn_job, start_cmd, he]
  · subst ho
    simp [spawn_job, start_cmd, hpid]
  · subst ho
    simp [start_cmd, hpid]

/-- C9 witness: the amended statement applied to one failing and one
succeeding spawn from the initial state. -/
theorem spawn_job_effects_witness :
    spawn_job supInit 0 5 7 8 10 false false false =
      { supInit with out := supInit.out ++ [OutMsg.errorMsg],
                     started := supInit.started + 1 } ∧
    spawn_job supInit 0 5 7 8 10 false false true =
      { supInit with sq := (5, 0 + 10) :: supInit.sq,
                     started := supInit.started + 1,
                     running := supInit.running + 1,
                     ptab := supInit.ptab ++ [5] } := by
  exact ⟨(spawn_job_effects supInit 0 5 7 8 10 false).1 (Or.inl rfl),
         ((spawn_job_effects supInit 0 5 7 8 10 true).2 rfl (by decide)).1⟩

end Claims

end NaemonWorker
